import Mathlib

/-!
Shallow embedding of `caffeine_app.py`: the decay model (`caffeine_remaining`),
the aggregator (`cumulative_caffeine`), the time formatter
(`hours_to_day_hour_min`, `format_hours_label`), the curve sampler of
`plot_cumulative_caffeine`, and the session-state callbacks
(`change_value`, `change_minute`, `change_hour`) together with the
time-slider/nudge/delete state mutations. Numeric values are modelled over
`ℝ` (the Python code computes with floats, its arithmetic here is taken
exactly); Python `int` values are `ℤ`, Python `//` and `%` on integers are
`Int.fdiv` and `Int.fmod` (floor-division semantics), and Python `int(x)`
on a float is truncation toward zero (`pyint`).
-/

namespace CaffeineApp

noncomputable section

open Classical Real

/-- A dose tuple `(day, dose_time, dose_mg)` as stored in
`st.session_state.doses`: 0-indexed day, time of day in hours, amount in mg. -/
structure Dose where
  day : ℤ
  time : ℝ
  mg : ℝ

/-- `total_hr = dose_time + day*24` (written `day*24 + t` at lines 32-33;
the two sums are the same value). -/
def Dose.totalHr (d : Dose) : ℝ := d.day * 24 + d.time

/-- `caffeine_remaining(dose_mg, elapsed_hr, half_life)`:
`dose_mg * (0.5 ** (elapsed_hr / half_life))`. -/
def caffeine_remaining (dose_mg elapsed_hr half_life : ℝ) : ℝ :=
  dose_mg * (0.5 : ℝ) ^ (elapsed_hr / half_life)

/-- One dose's summand inside `cumulative_caffeine`: elapsed time
`hours - total_hr` with negative values clamped to 0
(`elapsed[elapsed < 0] = 0`), fed into the decay model. -/
def doseContrib (d : Dose) (t half_life : ℝ) : ℝ :=
  caffeine_remaining d.mg (max (t - d.totalHr) 0) half_life

/-- `cumulative_caffeine(doses, hours, half_life)` at a single time point `t`:
`total` starts at 0 and every dose adds its clamped-decay remainder. The
NumPy version applies exactly this pointwise to an array of time points. -/
def cumulative_caffeine (doses : List Dose) (t half_life : ℝ) : ℝ :=
  doses.foldl (fun total d => total + doseContrib d t half_life) 0

/-- Python float `x // y`: floor division, as a real value. -/
def pyfloordiv (x y : ℝ) : ℝ := ⌊x / y⌋

/-- Python float `x % y`: `x - y * floor(x / y)` (result carries the sign of
the divisor). -/
def pymod (x y : ℝ) : ℝ := x - y * ⌊x / y⌋

/-- Python `int(x)` on a float: truncation toward zero. -/
def pyint (x : ℝ) : ℤ := if 0 ≤ x then ⌊x⌋ else ⌈x⌉

/-- `hours_to_day_hour_min(hours)`:
`(int(hours // 24) + 1, int(hours % 24), int((hours*60) % 60))`. -/
def hours_to_day_hour_min (hours : ℝ) : ℤ × ℤ × ℤ :=
  (pyint (pyfloordiv hours 24) + 1,
   pyint (pymod hours 24),
   pyint (pymod (hours * 60) 60))

/-- Python `f"{n:02d}"`: zero-pad to two digits. -/
def pad2 (n : ℤ) : String :=
  if 0 ≤ n ∧ n < 10 then "0" ++ toString n else toString n

/-- `format_hours_label(hours)`: `f"Day {day} {hour:02d}:{minute:02d}"`. -/
def format_hours_label (hours : ℝ) : String :=
  let dhm := hours_to_day_hour_min hours
  "Day " ++ toString dhm.1 ++ " " ++ pad2 dhm.2.1 ++ ":" ++ pad2 dhm.2.2

/-- `first_dose_total = min(day*24 + t for day, t, _ in doses)`. Python `min`
over a nonempty sequence; the empty case (which would raise, and is guarded
against by `if not doses` in the app) defaults to 0. -/
def firstDoseTotal : List Dose → ℝ
  | [] => 0
  | d :: ds => ds.foldl (fun a e => min a e.totalHr) d.totalHr

/-- `last_dose_total = max(day*24 + t for day, t, _ in doses)`, same
conventions as `firstDoseTotal`. -/
def lastDoseTotal : List Dose → ℝ
  | [] => 0
  | d :: ds => ds.foldl (fun a e => max a e.totalHr) d.totalHr

/-- `points = min(500, int(last_dose_total - first_dose_total + 24))`. -/
def numPoints (doses : List Dose) : ℤ :=
  min 500 (pyint (lastDoseTotal doses - firstDoseTotal doses + 24))

/-- `np.linspace(a, b, n)`: `n` evenly spaced samples over the closed
interval `[a, b]`, both endpoints included (for `n = 1` the single sample
is `a`; the division by zero then yields 0 in this model, as in Mathlib). -/
def linspace (a b : ℝ) (n : ℕ) : List ℝ :=
  (List.range n).map (fun (i : ℕ) => a + (b - a) * (i : ℝ) / ((n : ℝ) - 1))

/-- The sampled time axis of `plot_cumulative_caffeine`:
`hours = np.linspace(first_dose_total, last_dose_total + 24, points)`. -/
def sampleHours (doses : List Dose) : List ℝ :=
  linspace (firstDoseTotal doses) (lastDoseTotal doses + 24) (numPoints doses).toNat

/-- The `st.session_state` fields the callbacks and the slider/nudge block
touch. -/
structure AppState where
  doses : List Dose
  dose_value : ℤ
  day : ℤ
  hour : ℤ
  minute : ℤ
  selected_total_hr : ℝ

/-- `change_value(key, delta, min_val)`: `max(min_val, old + delta)`,
returning the new field value. -/
def change_value (old delta min_val : ℤ) : ℤ := max min_val (old + delta)

/-- `change_hour(delta)`: `total_hour = hour + delta`; the hour becomes
`total_hour % 24` and `total_hour // 24` is carried into
`change_value("day", extra_day, 1)`. -/
def change_hour (s : AppState) (delta : ℤ) : AppState :=
  let total_hour := s.hour + delta
  let extra_day := Int.fdiv total_hour 24
  { s with hour := Int.fmod total_hour 24,
           day := change_value s.day extra_day 1 }

/-- `change_minute(delta)`: `total_min = minute + delta`; the minute becomes
`total_min % 60` and `total_min // 60` is carried into `change_hour`. -/
def change_minute (s : AppState) (delta : ℤ) : AppState :=
  let total_min := s.minute + delta
  let extra_hour := Int.fdiv total_min 60
  change_hour { s with minute := Int.fmod total_min 60 } extra_hour

/-- The re-clamp at the top of the "Time Slider / Nudge" block (lines
163-169): when the dose list is nonempty and the selected time is below the
first dose's total hour, it is raised to that bound. The script applies no
corresponding upper-bound re-clamp. -/
def reclampLower (s : AppState) : AppState :=
  if s.doses ≠ [] ∧ s.selected_total_hr < firstDoseTotal s.doses then
    { s with selected_total_hr := firstDoseTotal s.doses }
  else s

/-- One user action mutating the dose list or the selected time: the six
nudge buttons, a slider interaction (the widget constrains the chosen value
to its `[first_dose_total, last_dose_total + 24]` range), Add Dose,
per-row Delete (`doses.pop(idx)` followed by `st.rerun()`), Clear All
Doses. -/
inductive Mutation where
  | nudge10down
  | nudge1down
  | nudge15mDown
  | sliderSet (v : ℝ)
  | nudge15mUp
  | nudge1up
  | nudge10up
  | addDose
  | deleteDose (i : ℕ)
  | clearDoses

/-- The immediate effect of each mutation on the state, following lines
154-160, 173-188 and 211-213 of the source. -/
def applyRaw (s : AppState) : Mutation → AppState
  | .nudge10down =>
      { s with
        selected_total_hr := max (firstDoseTotal s.doses)
          (s.selected_total_hr - 10) }
  | .nudge1down =>
      { s with
        selected_total_hr := max (firstDoseTotal s.doses)
          (s.selected_total_hr - 1) }
  | .nudge15mDown =>
      { s with
        selected_total_hr := max (firstDoseTotal s.doses)
          (s.selected_total_hr - 0.25) }
  | .sliderSet v =>
      { s with
        selected_total_hr := max (firstDoseTotal s.doses)
          (min (lastDoseTotal s.doses + 24) v) }
  | .nudge15mUp =>
      { s with
        selected_total_hr := min (lastDoseTotal s.doses + 24)
          (s.selected_total_hr + 0.25) }
  | .nudge1up =>
      { s with
        selected_total_hr := min (lastDoseTotal s.doses + 24)
          (s.selected_total_hr + 1) }
  | .nudge10up =>
      { s with
        selected_total_hr := min (lastDoseTotal s.doses + 24)
          (s.selected_total_hr + 10) }
  | .addDose =>
      { s with
        doses := s.doses ++
          [⟨s.day - 1, (s.hour : ℝ) + (s.minute : ℝ) / 60, (s.dose_value : ℝ)⟩] }
  | .deleteDose i => { s with doses := s.doses.eraseIdx i }
  | .clearDoses => { s with doses := [], selected_total_hr := 0 }

/-- A user action followed by the script rerun's lower-bound re-clamp: after
any mutation Streamlit reruns the whole script, so the next observable state
has passed through `reclampLower`. -/
def applyMutation (s : AppState) (m : Mutation) : AppState :=
  reclampLower (applyRaw s m)

/-- The selected time lies in the interval
`[first_dose_total, last_dose_total + 24]` claimed by the specification. -/
def selectedInBounds (s : AppState) : Prop :=
  firstDoseTotal s.doses ≤ s.selected_total_hr ∧
    s.selected_total_hr ≤ lastDoseTotal s.doses + 24

/-! ### Helper lemmas -/

lemma foldl_add_shift (f : Dose → ℝ) (l : List Dose) (x : ℝ) :
    l.foldl (fun a d => a + f d) x = x + l.foldl (fun a d => a + f d) 0 := by
  induction l generalizing x with
  | nil => simp
  | cons d ds ih =>
      simp only [List.foldl]
      rw [ih (x + f d), ih (0 + f d)]
      ring

lemma cumulative_cons (d : Dose) (ds : List Dose) (t hl : ℝ) :
    cumulative_caffeine (d :: ds) t hl
      = doseContrib d t hl + cumulative_caffeine ds t hl := by
  unfold cumulative_caffeine
  simp only [List.foldl]
  rw [foldl_add_shift]
  ring

lemma cumulative_eq_sum (doses : List Dose) (t hl : ℝ) :
    cumulative_caffeine doses t hl
      = (doses.map (fun d => doseContrib d t hl)).sum := by
  induction doses with
  | nil => rfl
  | cons d ds ih => rw [cumulative_cons, ih, List.map_cons, List.sum_cons]

lemma doseContrib_nonneg (d : Dose) (t hl : ℝ) (hmg : 0 ≤ d.mg) :
    0 ≤ doseContrib d t hl :=
  mul_nonneg hmg (Real.rpow_nonneg (by norm_num) _)

lemma doseContrib_le_mg (d : Dose) (t hl : ℝ) (hmg : 0 ≤ d.mg) (hl0 : 0 < hl) :
    doseContrib d t hl ≤ d.mg := by
  unfold doseContrib caffeine_remaining
  have h1 : (0.5 : ℝ) ^ (max (t - d.totalHr) 0 / hl) ≤ 1 :=
    Real.rpow_le_one (by norm_num) (by norm_num)
      (div_nonneg (le_max_right _ _) hl0.le)
  calc d.mg * (0.5 : ℝ) ^ (max (t - d.totalHr) 0 / hl)
      ≤ d.mg * 1 := mul_le_mul_of_nonneg_left h1 hmg
    _ = d.mg := mul_one _

/-! ### Claim theorems -/

/-- C3: for every `dose_mg`, `elapsed_hr ≥ 0` and `half_life_hr > 0`,
`caffeine_remaining` returns exactly `dose_mg * 0.5 ^ (elapsed_hr / half_life)`;
in particular one elapsed half-life halves the dose exactly. -/
theorem C3_remaining_closed_form (dose_mg elapsed_hr half_life : ℝ)
    (helapsed : 0 ≤ elapsed_hr) (hl : 0 < half_life) :
    caffeine_remaining dose_mg elapsed_hr half_life
        = dose_mg * (0.5 : ℝ) ^ (elapsed_hr / half_life) ∧
      caffeine_remaining dose_mg half_life half_life = dose_mg / 2 := by
  refine ⟨rfl, ?_⟩
  unfold caffeine_remaining
  rw [div_self (ne_of_gt hl), Real.rpow_one]
  ring

/-- Witness for C3 at `dose_mg = 100`, `elapsed_hr = 3`, `half_life = 5`. -/
theorem C3_remaining_closed_form_inst :
    (0 : ℝ) ≤ 3 ∧ (0 : ℝ) < 5 ∧
      (caffeine_remaining 100 3 5 = 100 * (0.5 : ℝ) ^ ((3 : ℝ) / 5) ∧
        caffeine_remaining 100 5 5 = 100 / 2) :=
  ⟨by norm_num, by norm_num, C3_remaining_closed_form 100 3 5 (by norm_num) (by norm_num)⟩

/-- C4: the aggregator is additive over the dose list, and an empty dose
list yields 0 at every time point. -/
theorem C4_cumulative_additive (d1 d2 : Dose) (t half_life : ℝ)
    (hl : 0 < half_life) :
    cumulative_caffeine [d1, d2] t half_life
        = cumulative_caffeine [d1] t half_life
            + cumulative_caffeine [d2] t half_life ∧
      ∀ u : ℝ, cumulative_caffeine [] u half_life = 0 := by
  constructor
  · simp only [cumulative_caffeine, List.foldl]
    ring
  · intro u
    rfl

/-- Witness for C4 with the spec's two-dose example (100mg at hour 8 and
100mg at hour 16, evaluated at hour 20, half-life 5). -/
theorem C4_cumulative_additive_inst :
    (0 : ℝ) < 5 ∧
      (cumulative_caffeine [⟨0, 8, 100⟩, ⟨0, 16, 100⟩] 20 5
          = cumulative_caffeine [⟨0, 8, 100⟩] 20 5
              + cumulative_caffeine [⟨0, 16, 100⟩] 20 5 ∧
        ∀ u : ℝ, cumulative_caffeine [] u 5 = 0) :=
  ⟨by norm_num, C4_cumulative_additive ⟨0, 8, 100⟩ ⟨0, 16, 100⟩ 20 5 (by norm_num)⟩

/-- C5: a dose evaluated strictly before its absolute time
`day*24 + time_of_day` contributes exactly its full amount (the elapsed time
is clamped to 0), never more. -/
theorem C5_full_dose_before_intake (d : Dose) (t half_life : ℝ)
    (ht : t < d.totalHr) :
    doseContrib d t half_life = d.mg ∧
      cumulative_caffeine [d] t half_life = d.mg := by
  have hmax : max (t - d.totalHr) 0 = 0 := max_eq_right (by linarith)
  have hc : doseContrib d t half_life = d.mg := by
    unfold doseContrib caffeine_remaining
    rw [hmax, zero_div, Real.rpow_zero, mul_one]
  refine ⟨hc, ?_⟩
  simp only [cumulative_caffeine, List.foldl]
  rw [zero_add]
  exact hc

/-- Witness for C5: a 100mg dose at day 0, hour 8, evaluated at hour 5. -/
theorem C5_full_dose_before_intake_inst :
    (5 : ℝ) < Dose.totalHr ⟨0, 8, 100⟩ ∧
      (doseContrib ⟨0, 8, 100⟩ 5 5 = (100 : ℝ) ∧
        cumulative_caffeine [⟨0, 8, 100⟩] 5 5 = (100 : ℝ)) :=
  ⟨by norm_num [Dose.totalHr], C5_full_dose_before_intake ⟨0, 8, 100⟩ 5 5
    (by norm_num [Dose.totalHr])⟩

/-- C7: for `dose_mg ≥ 0` and `half_life > 0`, `caffeine_remaining` is
monotonically non-increasing in the elapsed time over `elapsed ≥ 0`, and at
elapsed time 0 it returns the full dose. -/
theorem C7_remaining_antitone (dose_mg half_life : ℝ) (hd : 0 ≤ dose_mg)
    (hl : 0 < half_life) :
    (∀ e1 e2 : ℝ, 0 ≤ e1 → e1 ≤ e2 →
        caffeine_remaining dose_mg e2 half_life
          ≤ caffeine_remaining dose_mg e1 half_life) ∧
      caffeine_remaining dose_mg 0 half_life = dose_mg := by
  constructor
  · intro e1 e2 _ h12
    unfold caffeine_remaining
    refine mul_le_mul_of_nonneg_left ?_ hd
    refine Real.rpow_le_rpow_of_exponent_ge (by norm_num) (by norm_num) ?_
    gcongr
  · unfold caffeine_remaining
    rw [zero_div, Real.rpow_zero, mul_one]

/-- Witness for C7 at `dose_mg = 100`, `half_life = 5`, elapsed 1 ≤ 2. -/
theorem C7_remaining_antitone_inst :
    (0 : ℝ) ≤ 100 ∧ (0 : ℝ) < 5 ∧
      ((∀ e1 e2 : ℝ, 0 ≤ e1 → e1 ≤ e2 →
          caffeine_remaining 100 e2 5 ≤ caffeine_remaining 100 e1 5) ∧
        caffeine_remaining 100 0 5 = 100) :=
  ⟨by norm_num, by norm_num, C7_remaining_antitone 100 5 (by norm_num) (by norm_num)⟩

/-- C9: with all dose amounts nonnegative and a positive half-life, the
cumulative value at any time point is between 0 and the sum of all dose
amounts. -/
theorem C9_cumulative_bounded (doses : List Dose) (t half_life : ℝ)
    (hmg : ∀ d ∈ doses, 0 ≤ d.mg) (hl : 0 < half_life) :
    0 ≤ cumulative_caffeine doses t half_life ∧
      cumulative_caffeine doses t half_life ≤ (doses.map Dose.mg).sum := by
  rw [cumulative_eq_sum]
  constructor
  · refine List.sum_nonneg ?_
    intro x hx
    simp only [List.mem_map] at hx
    obtain ⟨d, hd, rfl⟩ := hx
    exact doseContrib_nonneg d t half_life (hmg d hd)
  · refine List.sum_le_sum ?_
    intro d hd
    exact doseContrib_le_mg d t half_life (hmg d hd) hl

/-- Witness for C9 with the spec's two-dose example at hour 20. -/
theorem C9_cumulative_bounded_inst :
    (∀ d ∈ ([⟨0, 8, 100⟩, ⟨0, 16, 100⟩] : List Dose), 0 ≤ d.mg) ∧
      (0 : ℝ) < 5 ∧
      (0 ≤ cumulative_caffeine [⟨0, 8, 100⟩, ⟨0, 16, 100⟩] 20 5 ∧
        cumulative_caffeine [⟨0, 8, 100⟩, ⟨0, 16, 100⟩] 20 5
          ≤ (([⟨0, 8, 100⟩, ⟨0, 16, 100⟩] : List Dose).map Dose.mg).sum) := by
  have hmg : ∀ d ∈ ([⟨0, 8, 100⟩, ⟨0, 16, 100⟩] : List Dose), 0 ≤ d.mg := by
    intro d hd
    simp only [List.mem_cons, List.not_mem_nil, or_false] at hd
    rcases hd with h | h <;> rw [h] <;> norm_num
  exact ⟨hmg, by norm_num,
    C9_cumulative_bounded [⟨0, 8, 100⟩, ⟨0, 16, 100⟩] 20 5 hmg (by norm_num)⟩

lemma pymod_nonneg (x : ℝ) {y : ℝ} (hy : 0 < y) : 0 ≤ pymod x y := by
  unfold pymod
  have h1 : ((⌊x / y⌋ : ℤ) : ℝ) ≤ x / y := Int.floor_le _
  have h2 : y * ((⌊x / y⌋ : ℤ) : ℝ) ≤ y * (x / y) :=
    mul_le_mul_of_nonneg_left h1 hy.le
  have h3 : y * (x / y) = x := by field_simp
  linarith

lemma pyint_intCast (n : ℤ) : pyint ((n : ℤ) : ℝ) = n := by
  unfold pyint
  split
  · exact Int.floor_intCast n
  · exact Int.ceil_intCast n

lemma pyint_eq_floor {x : ℝ} (hx : 0 ≤ x) : pyint x = ⌊x⌋ := by
  unfold pyint
  rw [if_pos hx]

/-- C1: the claim says `change_minute(+75)` from minute=50, hour=10, day=1
carries +1 into the hour, giving hour=11. The code carries the full floor
quotient `(50+75) // 60 = 2`, giving hour=12: the claimed hour value 11 is
wrong. -/
theorem C1_counterexample :
    (change_minute ⟨[], 100, 1, 10, 50, 0⟩ 75).hour = 12 ∧
      (change_minute ⟨[], 100, 1, 10, 50, 0⟩ 75).hour ≠ 11 := by
  constructor
  · decide
  · decide

/-- C1 (amended): `change_minute(+75)` from minute=50, hour=10, day=1 yields
minute=5 and carries +2 into the hour (the floor quotient of 125 over 60),
giving hour=12, with the day unchanged. -/
theorem C1_adjust_minute_carry :
    (change_minute ⟨[], 100, 1, 10, 50, 0⟩ 75).minute = 5 ∧
      (change_minute ⟨[], 100, 1, 10, 50, 0⟩ 75).hour = 12 ∧
      (change_minute ⟨[], 100, 1, 10, 50, 0⟩ 75).day = 1 := by
  refine ⟨?_, ?_, ?_⟩ <;> decide

/-- C10: with pending day 1 and a negative hour adjustment that underflows
(`hour + delta < 0`), `change_hour` sets the hour to the floor remainder
`(hour + delta) mod 24` and the carried negative day delta is absorbed by
the `max(1, ·)` clamp, leaving the day at 1. -/
theorem C10_hour_underflow_day_clamp (s : AppState) (delta : ℤ)
    (hday : s.day = 1) (hneg : s.hour + delta < 0) :
    (change_hour s delta).hour = Int.fmod (s.hour + delta) 24 ∧
      (change_hour s delta).day = 1 := by
  constructor
  · rfl
  · show change_value s.day (Int.fdiv (s.hour + delta) 24) 1 = 1
    unfold change_value
    rw [hday, Int.fdiv_eq_ediv _ (by norm_num)]
    have h2 : (s.hour + delta) / 24 < 0 := Int.ediv_neg' hneg (by norm_num)
    omega

/-- Witness for C10: `change_hour(-1)` from day=1, hour=0 yields day=1 and
hour `(-1) mod 24 = 23`, so the pending timestamp moves 23 hours later. -/
theorem C10_hour_underflow_day_clamp_inst :
    (⟨[], 100, 1, 0, 0, 0⟩ : AppState).day = 1 ∧
      (⟨[], 100, 1, 0, 0, 0⟩ : AppState).hour + (-1) < 0 ∧
      ((change_hour ⟨[], 100, 1, 0, 0, 0⟩ (-1)).hour
          = Int.fmod ((⟨[], 100, 1, 0, 0, 0⟩ : AppState).hour + (-1)) 24 ∧
        (change_hour ⟨[], 100, 1, 0, 0, 0⟩ (-1)).day = 1) ∧
      Int.fmod ((0 : ℤ) + (-1)) 24 = 23 :=
  ⟨rfl, by decide,
    C10_hour_underflow_day_clamp ⟨[], 100, 1, 0, 0, 0⟩ (-1) rfl (by decide),
    by decide⟩

/-- C8: for `total_hours ≥ 0` the formatter components are
`D = floor(total_hours/24) + 1`, `HH = floor(total_hours mod 24)`,
`MM = floor((total_hours*60) mod 60)`, and 25.5 formats as "Day 2 01:30". -/
theorem C8_time_formatter (total_hours : ℝ) (htot : 0 ≤ total_hours) :
    hours_to_day_hour_min total_hours
        = (⌊total_hours / 24⌋ + 1, ⌊pymod total_hours 24⌋,
            ⌊pymod (total_hours * 60) 60⌋) ∧
      format_hours_label 25.5 = "Day 2 01:30" := by
  have e1 : ∀ x : ℝ, pyint (pyfloordiv x 24) = ⌊x / 24⌋ := by
    intro x
    unfold pyfloordiv
    exact pyint_intCast _
  have e2 : ∀ x : ℝ, pyint (pymod x 24) = ⌊pymod x 24⌋ := fun x =>
    pyint_eq_floor (pymod_nonneg x (by norm_num))
  have e3 : ∀ x : ℝ, pyint (pymod x 60) = ⌊pymod x 60⌋ := fun x =>
    pyint_eq_floor (pymod_nonneg x (by norm_num))
  constructor
  · unfold hours_to_day_hour_min
    rw [e1, e2, e3]
  · have f1 : ⌊(25.5 : ℝ) / 24⌋ = 1 := by norm_num
    have m1 : pymod (25.5 : ℝ) 24 = 1.5 := by
      unfold pymod
      rw [f1]
      norm_num
    have m2 : pymod ((25.5 : ℝ) * 60) 60 = 30 := by
      unfold pymod
      have f2 : ⌊((25.5 : ℝ) * 60) / 60⌋ = 25 := by norm_num
      rw [f2]
      norm_num
    have hd : hours_to_day_hour_min (25.5 : ℝ) = (2, 1, 30) := by
      unfold hours_to_day_hour_min
      rw [e1, e2, e3, f1, m1, m2]
      norm_num
    unfold format_hours_label
    rw [hd]
    rfl

/-- Witness for C8 at `total_hours = 25.5`. -/
theorem C8_time_formatter_inst :
    (0 : ℝ) ≤ 25.5 ∧
      (hours_to_day_hour_min (25.5 : ℝ)
          = (⌊(25.5 : ℝ) / 24⌋ + 1, ⌊pymod (25.5 : ℝ) 24⌋,
              ⌊pymod ((25.5 : ℝ) * 60) 60⌋) ∧
        format_hours_label 25.5 = "Day 2 01:30") :=
  ⟨by norm_num, C8_time_formatter 25.5 (by norm_num)⟩

lemma foldl_min_le_init (l : List Dose) (a : ℝ) :
    l.foldl (fun x d => min x d.totalHr) a ≤ a := by
  induction l generalizing a with
  | nil => exact le_refl a
  | cons d ds ih =>
      simp only [List.foldl]
      exact le_trans (ih _) (min_le_left _ _)

lemma init_le_foldl_max (l : List Dose) (a : ℝ) :
    a ≤ l.foldl (fun x d => max x d.totalHr) a := by
  induction l generalizing a with
  | nil => exact le_refl a
  | cons d ds ih =>
      simp only [List.foldl]
      exact le_trans (le_max_left _ _) (ih _)

lemma firstDoseTotal_le_lastDoseTotal {l : List Dose} (h : l ≠ []) :
    firstDoseTotal l ≤ lastDoseTotal l := by
  cases l with
  | nil => exact absurd rfl h
  | cons d ds =>
      simp only [firstDoseTotal, lastDoseTotal]
      exact le_trans (foldl_min_le_init ds d.totalHr)
        (init_le_foldl_max ds d.totalHr)

lemma firstDoseTotal_append (x : Dose) (xs : List Dose) (d : Dose) :
    firstDoseTotal ((x :: xs) ++ [d])
      = min (firstDoseTotal (x :: xs)) d.totalHr := by
  simp only [List.cons_append, firstDoseTotal, List.foldl_append, List.foldl]

lemma lastDoseTotal_append (x : Dose) (xs : List Dose) (d : Dose) :
    lastDoseTotal ((x :: xs) ++ [d])
      = max (lastDoseTotal (x :: xs)) d.totalHr := by
  simp only [List.cons_append, lastDoseTotal, List.foldl_append, List.foldl]

lemma reclampLower_doses (s : AppState) : (reclampLower s).doses = s.doses := by
  unfold reclampLower
  split <;> rfl

lemma reclampLower_lower (s : AppState) (h : s.doses ≠ []) :
    firstDoseTotal (reclampLower s).doses ≤ (reclampLower s).selected_total_hr := by
  unfold reclampLower
  split
  · exact le_refl _
  · next h' =>
      push_neg at h'
      exact h' h

lemma reclampLower_inBounds (s : AppState) (h : s.doses ≠ [])
    (hub : s.selected_total_hr ≤ lastDoseTotal s.doses + 24) :
    selectedInBounds (reclampLower s) := by
  have hfl : firstDoseTotal s.doses ≤ lastDoseTotal s.doses + 24 := by
    have := firstDoseTotal_le_lastDoseTotal h
    linarith
  refine ⟨reclampLower_lower s h, ?_⟩
  unfold reclampLower
  split
  · exact hfl
  · exact hub

/-- C2: the claim says the selected time is re-clamped into
`[first_dose_total, last_dose_total + 24]` after every mutation, including a
delete that shrinks the upper bound. Deleting the latest dose of a state
whose selected time was legal leaves the selected time above the new upper
bound: the script only re-clamps against the lower bound. -/
theorem C2_counterexample :
    selectedInBounds ⟨[⟨0, 0, 100⟩, ⟨0, 10, 100⟩], 100, 1, 8, 0, 30⟩ ∧
      ¬ selectedInBounds
        (applyMutation ⟨[⟨0, 0, 100⟩, ⟨0, 10, 100⟩], 100, 1, 8, 0, 30⟩
          (Mutation.deleteDose 1)) := by
  have hraw : applyRaw ⟨[⟨0, 0, 100⟩, ⟨0, 10, 100⟩], 100, 1, 8, 0, 30⟩
      (Mutation.deleteDose 1) = ⟨[⟨0, 0, 100⟩], 100, 1, 8, 0, 30⟩ := rfl
  have hfirst : firstDoseTotal [(⟨0, 0, 100⟩ : Dose)] = 0 := by
    norm_num [firstDoseTotal, Dose.totalHr]
  have hstate : applyMutation ⟨[⟨0, 0, 100⟩, ⟨0, 10, 100⟩], 100, 1, 8, 0, 30⟩
      (Mutation.deleteDose 1) = ⟨[⟨0, 0, 100⟩], 100, 1, 8, 0, 30⟩ := by
    unfold applyMutation
    rw [hraw]
    unfold reclampLower
    rw [if_neg]
    rintro ⟨-, hlt⟩
    rw [hfirst] at hlt
    norm_num at hlt
  constructor
  · constructor
    · norm_num [firstDoseTotal, Dose.totalHr, List.foldl, min_def]
    · norm_num [lastDoseTotal, Dose.totalHr, List.foldl, max_def]
  · rw [hstate]
    rintro ⟨-, hub⟩
    norm_num [lastDoseTotal, Dose.totalHr] at hub

/-- C2 (amended): after every mutation the selected time is at least the
current lower bound `first_dose_total`; every mutation other than a per-row
delete also keeps it within `[first_dose_total, last_dose_total + 24]`. A
delete only restores the lower bound, so a selected time above the shrunken
upper bound survives. -/
theorem C2_selected_time_bounds (s : AppState) (m : Mutation)
    (hpre : s.doses ≠ []) (hs : selectedInBounds s)
    (hne : (applyMutation s m).doses ≠ []) :
    firstDoseTotal (applyMutation s m).doses
        ≤ (applyMutation s m).selected_total_hr ∧
      ((∀ i, m ≠ Mutation.deleteDose i) → selectedInBounds (applyMutation s m)) := by
  have hne' : (applyRaw s m).doses ≠ [] := by
    rwa [show (applyMutation s m).doses = (applyRaw s m).doses from
      reclampLower_doses _] at hne
  obtain ⟨hs1, hs2⟩ := hs
  have hfl : firstDoseTotal s.doses ≤ lastDoseTotal s.doses + 24 := by
    have := firstDoseTotal_le_lastDoseTotal hpre
    linarith
  constructor
  · exact reclampLower_lower _ hne'
  · intro hnotdel
    refine reclampLower_inBounds _ hne' ?_
    cases m with
    | nudge10down =>
        dsimp only [applyRaw]
        exact max_le hfl (by linarith)
    | nudge1down =>
        dsimp only [applyRaw]
        exact max_le hfl (by linarith)
    | nudge15mDown =>
        dsimp only [applyRaw]
        exact max_le hfl (by linarith)
    | sliderSet v =>
        dsimp only [applyRaw]
        exact max_le hfl (min_le_left _ _)
    | nudge15mUp =>
        dsimp only [applyRaw]
        exact min_le_left _ _
    | nudge1up =>
        dsimp only [applyRaw]
        exact min_le_left _ _
    | nudge10up =>
        dsimp only [applyRaw]
        exact min_le_left _ _
    | addDose =>
        dsimp only [applyRaw]
        rcases hx : s.doses with - | ⟨x, xs⟩
        · exact absurd hx hpre
        · rw [hx] at hs2
          rw [lastDoseTotal_append]
          have hmax : lastDoseTotal (x :: xs)
              ≤ max (lastDoseTotal (x :: xs))
                  (Dose.totalHr ⟨s.day - 1, (s.hour : ℝ) + (s.minute : ℝ) / 60,
                    (s.dose_value : ℝ)⟩) := le_max_left _ _
          linarith
    | deleteDose i => exact absurd rfl (hnotdel i)
    | clearDoses =>
        exact absurd (show (applyRaw s Mutation.clearDoses).doses = [] from rfl) hne'

/-- Witness for C2 (amended): a +1h nudge on a one-dose state with the
selected time inside the valid interval. -/
theorem C2_selected_time_bounds_inst :
    ((⟨[⟨0, 8, 100⟩], 100, 1, 8, 0, 10⟩ : AppState).doses ≠ [] ∧
      selectedInBounds ⟨[⟨0, 8, 100⟩], 100, 1, 8, 0, 10⟩ ∧
      (applyMutation ⟨[⟨0, 8, 100⟩], 100, 1, 8, 0, 10⟩
          Mutation.nudge1up).doses ≠ []) ∧
      (firstDoseTotal (applyMutation ⟨[⟨0, 8, 100⟩], 100, 1, 8, 0, 10⟩
            Mutation.nudge1up).doses
          ≤ (applyMutation ⟨[⟨0, 8, 100⟩], 100, 1, 8, 0, 10⟩
              Mutation.nudge1up).selected_total_hr ∧
        ((∀ i, Mutation.nudge1up ≠ Mutation.deleteDose i) →
          selectedInBounds (applyMutation ⟨[⟨0, 8, 100⟩], 100, 1, 8, 0, 10⟩
            Mutation.nudge1up))) := by
  have h1 : (⟨[⟨0, 8, 100⟩], 100, 1, 8, 0, 10⟩ : AppState).doses ≠ [] :=
    List.cons_ne_nil _ _
  have h2 : selectedInBounds ⟨[⟨0, 8, 100⟩], 100, 1, 8, 0, 10⟩ := by
    constructor
    · norm_num [firstDoseTotal, Dose.totalHr]
    · norm_num [lastDoseTotal, Dose.totalHr]
  have h3 : (applyMutation ⟨[⟨0, 8, 100⟩], 100, 1, 8, 0, 10⟩
      Mutation.nudge1up).doses ≠ [] := by
    rw [show (applyMutation ⟨[⟨0, 8, 100⟩], 100, 1, 8, 0, 10⟩
        Mutation.nudge1up).doses
      = (applyRaw ⟨[⟨0, 8, 100⟩], 100, 1, 8, 0, 10⟩ Mutation.nudge1up).doses from
      reclampLower_doses _]
    exact List.cons_ne_nil _ _
  exact ⟨⟨h1, h2, h3⟩,
    C2_selected_time_bounds ⟨[⟨0, 8, 100⟩], 100, 1, 8, 0, 10⟩
      Mutation.nudge1up h1 h2 h3⟩

lemma linspace_length (a b : ℝ) (n : ℕ) : (linspace a b n).length = n := by
  simp only [linspace, List.length_map, List.length_range]

lemma linspace_get (a b : ℝ) (n i : ℕ) (hi : i < (linspace a b n).length) :
    (linspace a b n).get ⟨i, hi⟩ = a + (b - a) * (i : ℝ) / ((n : ℝ) - 1) := by
  simp only [linspace, List.get_eq_getElem, List.getElem_map, List.getElem_range]

lemma head?_eq_get (l : List ℝ) (h : 0 < l.length) :
    l.head? = some (l.get ⟨0, h⟩) := by
  cases l with
  | nil => simp at h
  | cons x t => rfl

lemma getLast?_eq_get (l : List ℝ) (h : 0 < l.length) :
    l.getLast? = some (l.get ⟨l.length - 1, by omega⟩) := by
  rw [List.getLast?_eq_getLast l (List.ne_nil_of_length_pos h)]
  congr 1
  exact List.getLast_eq_get l _

lemma linspace_diff (a b : ℝ) (n i : ℕ) (hne1 : ((n : ℝ) - 1) ≠ 0)
    (hi : i + 1 < (linspace a b n).length) :
    (linspace a b n).get ⟨i + 1, hi⟩
        - (linspace a b n).get ⟨i, Nat.lt_of_succ_lt hi⟩
      = (b - a) / ((n : ℝ) - 1) := by
  rw [linspace_get, linspace_get]
  push_cast
  field_simp
  ring

lemma linspace_chain (a b : ℝ) (n : ℕ) (hab : a < b) :
    List.Chain' (· < ·) (linspace a b n) := by
  refine List.chain'_iff_get.mpr ?_
  intro i hi
  have hlen : (linspace a b n).length = n := linspace_length a b n
  have hn2 : 2 ≤ n := by omega
  have hpos : (0 : ℝ) < (n : ℝ) - 1 := by
    have h2 : (2 : ℝ) ≤ (n : ℝ) := by exact_mod_cast hn2
    linarith
  rw [linspace_get, linspace_get]
  have key : (b - a) * (i : ℝ) / ((n : ℝ) - 1)
      < (b - a) * ((i : ℕ) + 1 : ℝ) / ((n : ℝ) - 1) := by
    refine (div_lt_div_iff_of_pos_right hpos).mpr ?_
    refine mul_lt_mul_of_pos_left ?_ (by linarith)
    norm_num
  push_cast
  push_cast at key
  linarith

lemma linspace_head (a b : ℝ) (n : ℕ) (hn : 0 < n) :
    (linspace a b n).head? = some a := by
  have hlen : 0 < (linspace a b n).length := by
    rw [linspace_length]
    exact hn
  rw [head?_eq_get _ hlen, linspace_get]
  norm_num

lemma linspace_last (a b : ℝ) (n : ℕ) (hn : 2 ≤ n) :
    (linspace a b n).getLast? = some b := by
  have hlen : 0 < (linspace a b n).length := by
    rw [linspace_length]
    omega
  have hpos : (0 : ℝ) < (n : ℝ) - 1 := by
    have h2 : (2 : ℝ) ≤ (n : ℝ) := by exact_mod_cast hn
    linarith
  rw [getLast?_eq_get _ hlen, linspace_get]
  congr 1
  have hidx : ((linspace a b n).length - 1 : ℕ) = (n - 1 : ℕ) := by
    rw [linspace_length]
  rw [hidx]
  have hcast : ((n - 1 : ℕ) : ℝ) = (n : ℝ) - 1 := by
    push_cast [Nat.cast_sub (by omega : 1 ≤ n)]
    ring
  rw [hcast, mul_div_cancel_right₀ _ (ne_of_gt hpos)]
  ring

lemma numPoints_ge_24 (doses : List Dose) (h : doses ≠ []) :
    (24 : ℤ) ≤ numPoints doses := by
  have hfl := firstDoseTotal_le_lastDoseTotal h
  unfold numPoints
  rw [pyint_eq_floor (by linarith)]
  refine le_min (by norm_num) (Int.le_floor.mpr ?_)
  push_cast
  linarith

/-- C6: the claim says the sampler builds exactly `min(500, last-first+24)`
points. With dose times 0 and 0.5 on the same day the span is 24.5, and the
code builds `min(500, int(24.5)) = 24` points, not 24.5: the claimed count is
off whenever the span is fractional (Python `int` truncates it). -/
theorem C6_counterexample :
    (sampleHours [⟨0, 0, 100⟩, ⟨0, 0.5, 100⟩]).length = 24 ∧
      ((24 : ℝ) ≠ min 500
        (lastDoseTotal [⟨0, 0, 100⟩, ⟨0, 0.5, 100⟩]
          - firstDoseTotal [⟨0, 0, 100⟩, ⟨0, 0.5, 100⟩] + 24)) := by
  have hf : firstDoseTotal [(⟨0, 0, 100⟩ : Dose), ⟨0, 0.5, 100⟩] = 0 := by
    norm_num [firstDoseTotal, Dose.totalHr, List.foldl, min_def]
  have hlast : lastDoseTotal [(⟨0, 0, 100⟩ : Dose), ⟨0, 0.5, 100⟩] = 0.5 := by
    norm_num [lastDoseTotal, Dose.totalHr, List.foldl, max_def]
  constructor
  · show (linspace _ _ (numPoints _).toNat).length = 24
    rw [linspace_length]
    unfold numPoints
    rw [hf, hlast, pyint_eq_floor (by norm_num)]
    norm_num
    rfl
  · rw [hf, hlast]
    norm_num [min_def]

/-- C6 (amended): for every nonempty dose list the sampler builds exactly
`min(500, floor(last-first+24))` points (at least 2 of them), strictly
increasing and evenly spaced, spanning the closed interval
`[first, last+24]` from its first to its last sample. -/
theorem C6_curve_sampler (doses : List Dose) (h : doses ≠ []) :
    2 ≤ (numPoints doses).toNat ∧
    (sampleHours doses).length
        = (min 500 ⌊lastDoseTotal doses - firstDoseTotal doses + 24⌋).toNat ∧
    List.Chain' (· < ·) (sampleHours doses) ∧
    (∀ i (hi : i + 1 < (sampleHours doses).length),
        (sampleHours doses).get ⟨i + 1, hi⟩
            - (sampleHours doses).get ⟨i, Nat.lt_of_succ_lt hi⟩
          = (lastDoseTotal doses + 24 - firstDoseTotal doses)
              / (((numPoints doses).toNat : ℝ) - 1)) ∧
    (sampleHours doses).head? = some (firstDoseTotal doses) ∧
    (sampleHours doses).getLast? = some (lastDoseTotal doses + 24) := by
  have hfl := firstDoseTotal_le_lastDoseTotal h
  have h24 := numPoints_ge_24 doses h
  have hn2 : 2 ≤ (numPoints doses).toNat := by omega
  have hnR : (2 : ℝ) ≤ ((numPoints doses).toNat : ℝ) := by exact_mod_cast hn2
  have hne1 : (((numPoints doses).toNat : ℝ) - 1) ≠ 0 := by linarith
  have hab : firstDoseTotal doses < lastDoseTotal doses + 24 := by linarith
  refine ⟨hn2, ?_, ?_, ?_, ?_, ?_⟩
  · show (linspace (firstDoseTotal doses) (lastDoseTotal doses + 24)
        (numPoints doses).toNat).length = _
    rw [linspace_length]
    unfold numPoints
    rw [pyint_eq_floor (by linarith)]
  · exact linspace_chain _ _ _ hab
  · intro i hi
    exact linspace_diff _ _ _ i hne1 hi
  · exact linspace_head _ _ _ (by omega)
  · exact linspace_last _ _ _ hn2

/-- Witness for C6 with a single dose at day 0, hour 8. -/
theorem C6_curve_sampler_inst :
    ([⟨0, 8, 100⟩] : List Dose) ≠ [] ∧
      (2 ≤ (numPoints [⟨0, 8, 100⟩]).toNat ∧
        (sampleHours [⟨0, 8, 100⟩]).length
            = (min 500 ⌊lastDoseTotal [⟨0, 8, 100⟩]
                - firstDoseTotal [⟨0, 8, 100⟩] + 24⌋).toNat ∧
        List.Chain' (· < ·) (sampleHours [⟨0, 8, 100⟩]) ∧
        (∀ i (hi : i + 1 < (sampleHours [⟨0, 8, 100⟩]).length),
            (sampleHours [⟨0, 8, 100⟩]).get ⟨i + 1, hi⟩
                - (sampleHours [⟨0, 8, 100⟩]).get ⟨i, Nat.lt_of_succ_lt hi⟩
              = (lastDoseTotal [⟨0, 8, 100⟩] + 24 - firstDoseTotal [⟨0, 8, 100⟩])
                  / (((numPoints [⟨0, 8, 100⟩]).toNat : ℝ) - 1)) ∧
        (sampleHours [⟨0, 8, 100⟩]).head? = some (firstDoseTotal [⟨0, 8, 100⟩]) ∧
        (sampleHours [⟨0, 8, 100⟩]).getLast?
            = some (lastDoseTotal [⟨0, 8, 100⟩] + 24)) :=
  ⟨List.cons_ne_nil _ _, C6_curve_sampler [⟨0, 8, 100⟩] (List.cons_ne_nil _ _)⟩

end

end CaffeineApp
